import Mathlib

/-!
PayLevel Up v2 — Payroll Aggregation & Reconciliation Engine, verified model.

Shallow embedding of the engine logic of the PayLevel Up v2 application
(React/TypeScript) and proofs of the specification claims about it.

Modelling conventions:
* JavaScript `number` values used for money and hours are embedded as `ℚ`
  (the arithmetic relevant to the claims is exact decimal arithmetic).
  The one place where non-finite JS values (`Infinity`, `NaN`) matter —
  the dashboard progress percentage with `targetHours = 0` — is embedded
  with an explicit `JSNum` type carrying those values.
* Calendar dates (`YYYY-MM-DD` strings in the source) are embedded as their
  epoch-day number (`ℤ`, days since 1970-01-01, the value of
  `Date.getTime() / 86400000` for a UTC-midnight date).  For fixed-width ISO
  date strings the string order used by the source coincides with the order
  of the day numbers, day arithmetic (`setDate`, `getTime() - k*msPerDay`)
  is addition, and `Date.getDay()` is `(n + 4) % 7` (day 0, 1970-01-01, was
  a Thursday; Sunday = 0 convention).  `daysFromCivil` below converts a
  civil `(year, month, day)` triple to its day number so that concrete
  calendar dates can be used in witnesses.
* The calendar range selector works purely on date strings and is embedded
  over `String` with its lexicographic order.
* Randomly generated ids (`crypto.randomUUID()`) are threaded as explicit
  `freshId` parameters.
-/

/-- A pay context (source: `Job` interface in the types module). -/
structure Job where
  id : String
  name : String
  color : String
  hourlyRate : ℚ
  weekendHourlyRate : ℚ
  targetHours : ℚ
  nextHourlyRate : ℚ
  nextWeekendHourlyRate : ℚ
deriving DecidableEq

/-- One logged shift (source: `WorkLog` interface).  `date` is the epoch-day
number of the `YYYY-MM-DD` date string; `jobId = ""` models a JS-falsy
(absent or empty) job reference. -/
structure WorkLog where
  id : String
  jobId : String
  date : ℤ
  startTime : String
  endTime : String
  duration : ℚ
  notes : String
  timestamp : ℤ
deriving DecidableEq

/-- Source: `DEFAULT_JOB` constant in the types module. -/
def DEFAULT_JOB : Job :=
  { id := "default"
  , name := "Main Job"
  , color := "#4F46E5"
  , hourlyRate := 60
  , weekendHourlyRate := 60
  , targetHours := 1000
  , nextHourlyRate := 70
  , nextWeekendHourlyRate := 70 }

/-- Day-of-week (`Date.getDay()`) of an epoch-day number: Sunday = 0,
Saturday = 6.  Day 0 (1970-01-01) was a Thursday, hence the offset 4. -/
def getDay (n : ℤ) : ℤ := (n + 4) % 7

/-- Epoch-day number of a civil date (days-from-civil algorithm); used to
name concrete calendar dates in witnesses. -/
def daysFromCivil (y m d : ℤ) : ℤ :=
  let y' := if m ≤ 2 then y - 1 else y
  let era := y' / 400
  let yoe := y' - era * 400
  let mp := if 2 < m then m - 3 else m + 9
  let doy := (153 * mp + 2) / 5 + d - 1
  let doe := yoe * 365 + yoe / 4 - yoe / 100 + doy
  era * 146097 + doe - 719468

/-- Source: `getLogValue` in the calendar view (the same computation appears
as `getLogEarnings` in the dashboard): look the log's job up by id, value the
log at 0 if no job matches, otherwise at `duration` times the weekend rate on
Saturday/Sunday and the weekday rate otherwise. -/
def getLogValue (jobs : List Job) (log : WorkLog) : ℚ :=
  match jobs.find? (fun j => j.id == log.jobId) with
  | none => 0
  | some job =>
    let day := getDay log.date
    let isWeekend := day == 0 || day == 6
    log.duration * (if isWeekend then job.weekendHourlyRate else job.hourlyRate)

/-- The period/chart aggregation of a list of logs (source: `selectedStats`
in the calendar view: one pass accumulating `totalHours += duration` and
`totalEarnings += getLogValue(log)`).  First component: total hours, second:
total earnings. -/
def aggregate (jobs : List Job) (logs : List WorkLog) : ℚ × ℚ :=
  logs.foldl (fun acc l => (acc.1 + l.duration, acc.2 + getLogValue jobs l)) (0, 0)

/-- One chart bucket (source: the `data.push({ name, hours, fullDate,
isWeekend })` objects of the dashboard's `chartData`).  The `name` label is
locale-dependent presentation text and is not modelled. -/
structure Bucket where
  hours : ℚ
  fullDate : ℤ
  isWeekend : Bool
deriving DecidableEq

/-- Source: the `recent` branch of the dashboard's `chartData` memo —
`startDate = today - 6 days`, then for `i = 0..6` a bucket for
`startDate + i` containing the summed durations of the logs of that exact
date, marked as weekend when the day-of-week is 0 or 6. -/
def chartDataRecent (logs : List WorkLog) (today : ℤ) : List Bucket :=
  (List.range 7).map (fun (i : ℕ) =>
    let startDate := today - 6
    let dateV := startDate + (i : ℤ)
    let dayLogs := logs.filter (fun l => l.date == dateV)
    let dayTotal := (dayLogs.map WorkLog.duration).sum
    let dayOfWeek := getDay dateV
    { hours := dayTotal, fullDate := dateV, isWeekend := dayOfWeek == 0 || dayOfWeek == 6 })

/-! ## Calendar range selector -/

/-- Selector state: `(selectStart, selectEnd)` as in the calendar view
(`useState<string | null>`). -/
abbrev SelState := Option String × Option String

/-- Source: `handleDateClick` in the calendar view.  The source guard is
`if (!selectStart || (selectStart && selectEnd))`: with no start, or with a
complete range, the clicked date becomes the new start and the end is
cleared; with only a start `s`, a click on `d < s` (lexicographic string
comparison) swaps so that `d` becomes the start and `s` the end, otherwise
`d` becomes the end. -/
def handleDateClick (st : SelState) (d : String) : SelState :=
  match st with
  | (none, _) => (some d, none)
  | (some _, some _) => (some d, none)
  | (some s, none) => if d < s then (some d, some s) else (some s, some d)

/-- A whole click sequence applied to the initial (empty) selector state. -/
def clickAll (ds : List String) : SelState :=
  ds.foldl handleDateClick (none, none)

/-! ## Progress tracking (JS number semantics) -/

/-- A JavaScript `number` as far as the progress computation needs it:
a finite value (embedded exactly as `ℚ`), the two infinities, or `NaN`. -/
inductive JSNum where
  | num (q : ℚ)
  | posInf
  | negInf
  | nan
deriving DecidableEq

/-- JS division.  The only case the program reaches with interesting
operands is finite/finite: division by zero produces `±Infinity` (or `NaN`
for `0/0`), exactly as in JS (zeroes in `ℚ` are unsigned, matching the
default `+0` of the source's values). -/
def jsDiv : JSNum → JSNum → JSNum
  | .nan, _ => .nan
  | _, .nan => .nan
  | .num a, .num b =>
      if b = 0 then (if a = 0 then .nan else if 0 < a then .posInf else .negInf)
      else .num (a / b)
  | .posInf, .num b => if b < 0 then .negInf else .posInf
  | .negInf, .num b => if b < 0 then .posInf else .negInf
  | .num _, .posInf => .num 0
  | .num _, .negInf => .num 0
  | .posInf, .posInf => .nan
  | .posInf, .negInf => .nan
  | .negInf, .posInf => .nan
  | .negInf, .negInf => .nan

/-- JS multiplication (cases needed: finite·finite and infinity·finite). -/
def jsMul : JSNum → JSNum → JSNum
  | .nan, _ => .nan
  | _, .nan => .nan
  | .num a, .num b => .num (a * b)
  | .posInf, .num a => if a = 0 then .nan else if 0 < a then .posInf else .negInf
  | .num a, .posInf => if a = 0 then .nan else if 0 < a then .posInf else .negInf
  | .negInf, .num a => if a = 0 then .nan else if 0 < a then .negInf else .posInf
  | .num a, .negInf => if a = 0 then .nan else if 0 < a then .negInf else .posInf
  | .posInf, .posInf => .posInf
  | .posInf, .negInf => .negInf
  | .negInf, .posInf => .negInf
  | .negInf, .negInf => .posInf

/-- JS `Math.max` on two arguments (`NaN` if either argument is `NaN`). -/
def jsMax : JSNum → JSNum → JSNum
  | .nan, _ => .nan
  | _, .nan => .nan
  | .posInf, _ => .posInf
  | _, .posInf => .posInf
  | .negInf, x => x
  | x, .negInf => x
  | .num a, .num b => .num (max a b)

/-- JS `Math.min` on two arguments (`NaN` if either argument is `NaN`). -/
def jsMin : JSNum → JSNum → JSNum
  | .nan, _ => .nan
  | _, .nan => .nan
  | .negInf, _ => .negInf
  | _, .negInf => .negInf
  | .posInf, x => x
  | x, .posInf => x
  | .num a, .num b => .num (min a b)

/-- Source: the dashboard's single-job progress computation
`progressPercent = Math.min(100, Math.max(0, (totalHours / targetHours) * 100))`
(no guard of any kind for `targetHours = 0`). -/
def progressPercent (job : Job) (totalHours : ℚ) : JSNum :=
  jsMin (.num 100) (jsMax (.num 0)
    (jsMul (jsDiv (.num totalHours) (.num job.targetHours)) (.num 100)))

/-! ## Payslip reconciliation -/

/-- User-entered payslip figures of the verifier component, after the
`parseFloat(x) || 0` input parsing of the source. -/
structure PayslipInputs where
  weekday : ℚ
  weekend : ℚ
  allowance : ℚ
  taxRate : ℚ
deriving DecidableEq

/-- Everything the payslip verifier derives for one comparison. -/
structure ReconcileResult where
  appWeekdayHours : ℚ
  appWeekendHours : ℚ
  appGross : ℚ
  appNet : ℚ
  slipGross : ℚ
  slipNet : ℚ
  diffWeekday : ℚ
  diffWeekend : ℚ
  diffPay : ℚ
deriving DecidableEq

/-- Source: the `appStats` memo of the payslip verifier — the period is the
`days` (14 or 30) calendar days ending at `endDate` inclusive
(`start = end - (days-1)·msPerDay`), membership and job filter
`l.date >= startStr && l.date <= endStr && l.jobId === activeJob.id`, and the
duration of each log is added to the weekend bucket when its day-of-week is
0 or 6 and to the weekday bucket otherwise.  Returns
`(weekdayHours, weekendHours)`. -/
def appPeriodHours (logs : List WorkLog) (jobId : String) (endDate days : ℤ) :
    ℚ × ℚ :=
  let startD := endDate - (days - 1)
  let periodLogs :=
    logs.filter (fun l => startD ≤ l.date && l.date ≤ endDate && l.jobId == jobId)
  periodLogs.foldl
    (fun acc l =>
      if getDay l.date == 0 || getDay l.date == 6
      then (acc.1, acc.2 + l.duration)
      else (acc.1 + l.duration, acc.2))
    (0, 0)

/-- Source: the verifier's derived values — `estimatedBasePay`,
`appTotalGross = estimatedBasePay + inputAllowance`,
`appNetPay = appTotalGross * (1 - inputTaxRate/100)`,
`slipTotalGross = inputWeekday*hourlyRate + inputWeekend*weekendHourlyRate + inputAllowance`,
`slipNetPay`, and the three `slip − app` differences. -/
def reconcile (logs : List WorkLog) (job : Job) (endDate days : ℤ)
    (inp : PayslipInputs) : ReconcileResult :=
  let hrs := appPeriodHours logs job.id endDate days
  let estimatedBasePay := hrs.1 * job.hourlyRate + hrs.2 * job.weekendHourlyRate
  let appTotalGross := estimatedBasePay + inp.allowance
  let appNetPay := appTotalGross * (1 - inp.taxRate / 100)
  let slipTotalGross :=
    inp.weekday * job.hourlyRate + inp.weekend * job.weekendHourlyRate + inp.allowance
  let slipNetPay := slipTotalGross * (1 - inp.taxRate / 100)
  { appWeekdayHours := hrs.1
  , appWeekendHours := hrs.2
  , appGross := appTotalGross
  , appNet := appNetPay
  , slipGross := slipTotalGross
  , slipNet := slipNetPay
  , diffWeekday := inp.weekday - hrs.1
  , diffWeekend := inp.weekend - hrs.2
  , diffPay := slipTotalGross - appTotalGross }

/-- Source: `DiffRow`'s `isOver = diff < -0.1`. -/
def isOver (diff : ℚ) : Bool := diff < -(1/10 : ℚ)

/-- Source: `DiffRow`'s `isUnder = diff > 0.1`. -/
def isUnder (diff : ℚ) : Bool := (1/10 : ℚ) < diff

/-- Source: `DiffRow`'s `isOk = !isOver && !isUnder`; the remediation button
is rendered exactly when `isUnder` or `isOver` holds. -/
def isOk (diff : ℚ) : Bool := !(isOver diff) && !(isUnder diff)

/-- Rounding performed by `parseFloat(x.toFixed(2))`: to the nearest hundredth, ties toward
`+∞` (ECMA `toFixed` picks the larger candidate on a tie). -/
def round2 (x : ℚ) : ℚ := (⌊x * 100 + 1/2⌋ : ℤ) / 100

/-- Source: `handleAutoFill` in the payslip verifier — unless the diff is
zero (`Math.abs(diff) <= 0`), add exactly one compensating `WorkLog` dated
at `endDate` whose duration is the signed diff rounded by
`parseFloat(diff.toFixed(2))`, labelled backfill for a positive diff and
correction for a negative one. -/
def handleAutoFill (freshId jobId : String) (endDate : ℤ) (isWeekendType : Bool)
    (diff : ℚ) : Option WorkLog :=
  if |diff| ≤ 0 then none
  else some
    { id := freshId
    , jobId := jobId
    , date := endDate
    , startTime := "-"
    , endTime := "-"
    , duration := round2 diff
    , notes := (if 0 < diff then "Payslip Backfill" else "Payslip Correction")
        ++ (if isWeekendType then " (weekend)" else " (weekday)")
    , timestamp := 0 }

/-! ## State migration (App load effect, lines 37-56) -/

/-- The legacy top-level settings fields read by the migration (the
deprecated single-job fields of `UserSettings`); `none` models an absent
field of the persisted blob. -/
structure LegacySettings where
  hourlyRate : Option ℚ
  weekendHourlyRate : Option ℚ
  targetHours : Option ℚ
  nextHourlyRate : Option ℚ
  nextWeekendHourlyRate : Option ℚ
deriving DecidableEq

/-- JS `x || d` for an optional numeric field: an absent field and a `0`
field are both falsy and fall through to `d`. -/
def jsOr (x : Option ℚ) (d : ℚ) : ℚ :=
  match x with
  | some v => if v = 0 then d else v
  | none => d

/-- The persisted blob as the migration block sees it: job list, log list
(`jobId = ""` models a falsy job reference) and the legacy settings
fields. -/
structure PersistedState where
  jobs : List Job
  logs : List WorkLog
  settings : LegacySettings
deriving DecidableEq

/-- Source: the `mainJob` synthesized by the migration block, with the JS
truthiness fallback chains
`oldSettings.weekendHourlyRate || oldSettings.hourlyRate || DEFAULT_JOB.weekendHourlyRate`
and
`oldSettings.nextWeekendHourlyRate || oldSettings.nextHourlyRate || DEFAULT_JOB.nextWeekendHourlyRate`. -/
def migrateMainJob (freshId : String) (s : LegacySettings) : Job :=
  { DEFAULT_JOB with
    id := freshId
  , name := "Main Job"
  , hourlyRate := jsOr s.hourlyRate DEFAULT_JOB.hourlyRate
  , weekendHourlyRate :=
      jsOr s.weekendHourlyRate (jsOr s.hourlyRate DEFAULT_JOB.weekendHourlyRate)
  , targetHours := jsOr s.targetHours DEFAULT_JOB.targetHours
  , nextHourlyRate := jsOr s.nextHourlyRate DEFAULT_JOB.nextHourlyRate
  , nextWeekendHourlyRate :=
      jsOr s.nextWeekendHourlyRate
        (jsOr s.nextHourlyRate DEFAULT_JOB.nextWeekendHourlyRate) }

/-- Source: the migration block of the App load effect.  If the job
collection is empty, synthesize `mainJob` (with a fresh random id, threaded
here as `freshId`) and reassign `log.jobId || mainJob.id` on every log;
otherwise the state passes through unchanged.  The settings themselves are
not touched by the block. -/
def migrate (freshId : String) (st : PersistedState) : PersistedState :=
  if st.jobs.isEmpty then
    let mainJob := migrateMainJob freshId st.settings
    { jobs := [mainJob]
    , logs := st.logs.map (fun l =>
        { l with jobId := if l.jobId = "" then mainJob.id else l.jobId })
    , settings := st.settings }
  else st

/-! ## Job deletion -/

/-- Source: `handleDeleteJob` in the App shell — refuse (alert and return)
when at most one job remains, otherwise remove the job with the given id and
cascade to its logs.  (The `window.confirm` the source also gates on can
only keep the state unchanged, so it is irrelevant to the invariant.) -/
def handleDeleteJob (jobs : List Job) (logs : List WorkLog) (jobId : String) :
    List Job × List WorkLog :=
  if jobs.length ≤ 1 then (jobs, logs)
  else (jobs.filter (fun j => j.id != jobId), logs.filter (fun l => l.jobId != jobId))

/-- The JS-truthy content of a legacy numeric field (present and non-zero),
used to state what the migration fallback chains actually select. -/
def truthy (x : Option ℚ) : Option ℚ :=
  match x with
  | some v => if v = 0 then none else some v
  | none => none

/-! ## Concrete data used by witnesses and counterexamples -/

/-- A job used in witnesses: weekday rate 60, weekend rate 70. -/
def jobA : Job := ⟨"a", "Job A", "#4F46E5", 60, 70, 100, 70, 80⟩

/-- A Saturday log (2024-03-09 was a Saturday) of 5 hours against `jobA`. -/
def logSat : WorkLog := ⟨"l1", "a", daysFromCivil 2024 3 9, "-", "-", 5, "", 0⟩

/-- A 5-hour log whose `jobId` matches no job. -/
def logOrphan : WorkLog := ⟨"l2", "zz", daysFromCivil 2024 3 9, "-", "-", 5, "", 0⟩

/-! ## C1: log valuation -/

/-- With pairwise-distinct job ids, `find?` by id locates exactly the member
job carrying that id. -/
theorem find_id_eq_some {tgt : String} :
    ∀ (jobs : List Job) (job : Job), job ∈ jobs → job.id = tgt →
      (jobs.map Job.id).Nodup → jobs.find? (fun j => j.id == tgt) = some job := by
  intro jobs
  induction jobs with
  | nil => intro job hmem; exact absurd hmem (List.not_mem_nil job)
  | cons a tl ih =>
    intro job hmem hid hnd
    rw [List.map_cons, List.nodup_cons] at hnd
    by_cases ha : a.id = tgt
    · have hjob : job = a := by
        rcases List.mem_cons.mp hmem with h | h
        · exact h
        · have hin : job.id ∈ List.map Job.id tl := List.mem_map_of_mem Job.id h
          rw [hid, ← ha] at hin
          exact absurd hin hnd.1
      rw [List.find?_cons_of_pos tl (by simp [ha]), hjob]
    · have hja : job ≠ a := fun h => ha (h ▸ hid)
      have hmem' : job ∈ tl := by
        rcases List.mem_cons.mp hmem with h | h
        · exact absurd h hja
        · exact h
      rw [List.find?_cons_of_neg tl (by simp [ha])]
      exact ih job hmem' hid hnd.2

/-- C1: `valueOf` returns 0 when the log's `jobId` matches no job; otherwise
it is `duration` times the matched job's weekend rate when the date's
day-of-week is 6 or 0 (Sunday = 0 convention), and times the weekday rate
otherwise. -/
theorem getLogValue_correct (jobs : List Job) (log : WorkLog) :
    ((∀ j ∈ jobs, j.id ≠ log.jobId) → getLogValue jobs log = 0) ∧
    (∀ job ∈ jobs, job.id = log.jobId → (jobs.map Job.id).Nodup →
      getLogValue jobs log =
        log.duration *
          (if getDay log.date = 6 ∨ getDay log.date = 0
           then job.weekendHourlyRate else job.hourlyRate)) := by
  constructor
  · intro hnone
    have : jobs.find? (fun j => j.id == log.jobId) = none :=
      List.find?_eq_none.mpr (fun j hj => by simp [hnone j hj])
    simp [getLogValue, this]
  · intro job hmem hid hnd
    rw [getLogValue, find_id_eq_some jobs job hmem hid hnd]
    by_cases hw : getDay log.date = 6 ∨ getDay log.date = 0
    · rcases hw with h | h <;> simp [h]
    · push_neg at hw
      simp [hw.1, hw.2]

/-- C1 witness: a dangling `jobId` values at 0, and the 5-hour Saturday log
against `jobA` (weekend rate 70) values at 350. -/
theorem getLogValue_correct_witness :
    ((∀ j ∈ [jobA], j.id ≠ logOrphan.jobId) ∧ getLogValue [jobA] logOrphan = 0) ∧
    getLogValue [jobA] logSat = 350 := by
  refine ⟨⟨by decide, (getLogValue_correct [jobA] logOrphan).1 (by decide)⟩, ?_⟩
  have h := (getLogValue_correct [jobA] logSat).2 jobA (by decide) (by decide) (by decide)
  rw [h]
  have hday : getDay logSat.date = 6 := by decide
  rw [hday]
  norm_num [logSat, jobA]

/-! ## C8: aggregate additivity -/

/-- The aggregation fold, started from any accumulator, adds the component
sums of the log list to the accumulator. -/
theorem aggregate_foldl (jobs : List Job) :
    ∀ (logs : List WorkLog) (init : ℚ × ℚ),
      logs.foldl (fun acc l => (acc.1 + l.duration, acc.2 + getLogValue jobs l)) init
        = (init.1 + (logs.map WorkLog.duration).sum,
           init.2 + (logs.map (getLogValue jobs)).sum) := by
  intro logs
  induction logs with
  | nil => intro init; simp
  | cons l tl ih => intro init; simp [ih, add_assoc]

/-- C8: `aggregate` is additive over concatenation of log lists (hence over
any partition of a log set into two disjoint parts): hours and earnings of
`A ++ B` are the componentwise sums of those of `A` and of `B`. -/
theorem aggregate_additive (jobs : List Job) (A B : List WorkLog) :
    aggregate jobs (A ++ B) =
      ((aggregate jobs A).1 + (aggregate jobs B).1,
       (aggregate jobs A).2 + (aggregate jobs B).2) := by
  simp [aggregate, aggregate_foldl jobs, Prod.ext_iff]

/-! ## C7: bucket completeness of the 7-day trend chart -/

/-- C7: the `recent` chart always has exactly 7 buckets, bucket `i` is dated
`today - 6 + i` (so the dates are the 7 contiguous calendar days ending at
`today`), and a bucket whose date matches no log still appears with
`hours = 0`. -/
theorem chartDataRecent_complete (logs : List WorkLog) (today : ℤ) :
    (chartDataRecent logs today).length = 7 ∧
    ∀ i (h : i < (chartDataRecent logs today).length),
      ((chartDataRecent logs today).get ⟨i, h⟩).fullDate = today - 6 + i ∧
      ((∀ l ∈ logs, l.date ≠ today - 6 + i) →
        ((chartDataRecent logs today).get ⟨i, h⟩).hours = 0) := by
  constructor
  · simp only [chartDataRecent]
    rw [List.length_map, List.length_range]
  · intro i h
    have hget : (chartDataRecent logs today).get ⟨i, h⟩ =
        { hours := ((logs.filter (fun l => l.date == today - 6 + (i : ℤ))).map
            WorkLog.duration).sum
        , fullDate := today - 6 + (i : ℤ)
        , isWeekend := getDay (today - 6 + (i : ℤ)) == 0 || getDay (today - 6 + (i : ℤ)) == 6 } := by
      simp only [chartDataRecent, List.get_eq_getElem, List.getElem_map, List.getElem_range]
    constructor
    · rw [hget]
    · intro hnone
      have hfilt : logs.filter (fun l => l.date == today - 6 + (i : ℤ)) = [] := by
        rw [List.filter_eq_nil_iff]
        intro l hl
        simpa using hnone l hl
      rw [hget]
      simp [hfilt]

/-- C7 witness: with no logs at all and `today = 0`, there are 7 buckets,
bucket 0 is dated `-6`, and it has `hours = 0`. -/
theorem chartDataRecent_complete_witness :
    (chartDataRecent [] 0).length = 7 ∧
    ((chartDataRecent [] 0).get ⟨0, by decide⟩).fullDate = -6 ∧
    ((chartDataRecent [] 0).get ⟨0, by decide⟩).hours = 0 := by
  have h := chartDataRecent_complete [] 0
  have h0 : (0 : ℕ) < (chartDataRecent [] 0).length := by decide
  refine ⟨h.1, ?_, (h.2 0 h0).2 (by simp)⟩
  have := (h.2 0 h0).1
  simpa using this

/-! ## C2: promotion progress percentage -/

/-- A job whose promotion threshold is zero hours. -/
def zeroTargetJob : Job := { DEFAULT_JOB with targetHours := 0 }

/-- C2 counterexample: with `targetHours = 0` and 5 accumulated hours the
code performs the unguarded JS division `5 / 0 = Infinity`, which
`Math.min(100, ·)` clamps to a percent of 100 — not the 0 the claim
requires. -/
theorem progressPercent_zeroTarget_cex :
    progressPercent zeroTargetJob 5 = JSNum.num 100 ∧
    progressPercent zeroTargetJob 5 ≠ JSNum.num 0 := by
  have h : progressPercent zeroTargetJob 5 = JSNum.num 100 := by
    have h5 : (0 : ℚ) < 5 := by norm_num
    simp [progressPercent, zeroTargetJob, DEFAULT_JOB, jsDiv, jsMul, jsMax, jsMin,
      h5, h5.ne']
  exact ⟨h, by rw [h]; simp⟩

/-- C2 amended: for `targetHours ≠ 0` the percent is
`clamp(0, 100, h / targetHours * 100)`; for `targetHours = 0` there is no
guard — the JS division yields percent 100 for positive accumulated hours
and `NaN` for zero accumulated hours. -/
theorem progressPercent_amended (job : Job) (h : ℚ) :
    (job.targetHours ≠ 0 →
      progressPercent job h = JSNum.num (min 100 (max 0 (h / job.targetHours * 100)))) ∧
    (job.targetHours = 0 → 0 < h → progressPercent job h = JSNum.num 100) ∧
    (job.targetHours = 0 → h = 0 → progressPercent job h = JSNum.nan) := by
  refine ⟨?_, ?_, ?_⟩
  · intro ht
    simp [progressPercent, jsDiv, jsMul, jsMax, jsMin, ht]
  · intro ht hpos
    simp [progressPercent, jsDiv, jsMul, jsMax, jsMin, ht, hpos, hpos.ne']
  · intro ht hzero
    simp [progressPercent, jsDiv, jsMul, jsMax, jsMin, ht, hzero]

/-- C2 witness: a 100-hour target with 50 accumulated hours gives 50%, and
a zero target with zero hours gives `NaN`. -/
theorem progressPercent_amended_witness :
    progressPercent DEFAULT_JOB 500 = JSNum.num 50 ∧
    progressPercent zeroTargetJob 0 = JSNum.nan := by
  constructor
  · have h := (progressPercent_amended DEFAULT_JOB 500).1 (by norm_num [DEFAULT_JOB])
    rw [h]
    norm_num [DEFAULT_JOB]
  · exact (progressPercent_amended zeroTargetJob 0).2.2 (by norm_num [zeroTargetJob, DEFAULT_JOB]) rfl

/-! ## C6: calendar range selector normalization -/

/-- One selector step preserves the `start ≤ end` normalization invariant. -/
theorem handleDateClick_invariant (st : SelState)
    (hst : ∀ s e, st = (some s, some e) → s ≤ e) (d : String) :
    ∀ s e, handleDateClick st d = (some s, some e) → s ≤ e := by
  intro s e
  match st with
  | (none, _) => simp [handleDateClick]
  | (some s0, some e0) => simp [handleDateClick]
  | (some s0, none) =>
    by_cases hlt : d < s0
    · simp only [handleDateClick, if_pos hlt, Prod.mk.injEq, Option.some.injEq]
      rintro ⟨rfl, rfl⟩
      exact le_of_lt hlt
    · simp only [handleDateClick, if_neg hlt, Prod.mk.injEq, Option.some.injEq]
      rintro ⟨rfl, rfl⟩
      exact le_of_not_lt hlt

/-- Any click sequence, run from a state satisfying the normalization
invariant, ends in a state satisfying it. -/
theorem clickAll_invariant :
    ∀ (ds : List String) (st : SelState),
      (∀ s e, st = (some s, some e) → s ≤ e) →
      ∀ s e, ds.foldl handleDateClick st = (some s, some e) → s ≤ e := by
  intro ds
  induction ds with
  | nil => intro st hst; simpa using hst
  | cons d tl ih =>
    intro st hst
    rw [List.foldl_cons]
    exact ih (handleDateClick st d) (handleDateClick_invariant st hst d)

/-- C6: after any sequence of calendar clicks, whenever both a start and an
end are selected, `start ≤ end` in the lexicographic string order; and a
click on a date `d` below the current single-selected start `s` makes `d`
the start and `s` the end. -/
theorem rangeSelector_normalized :
    (∀ (ds : List String) (s e : String),
      (clickAll ds).1 = some s → (clickAll ds).2 = some e → s ≤ e) ∧
    (∀ (s d : String), d < s →
      handleDateClick (some s, none) d = (some d, some s)) := by
  constructor
  · intro ds s e h1 h2
    have hpair : clickAll ds = (some s, some e) := by
      rw [← h1, ← h2]
    exact clickAll_invariant ds (none, none) (by simp) s e hpair
  · intro s d hlt
    simp only [handleDateClick]
    rw [if_pos hlt]

/-! ## C3: reconciliation gross/net formulas -/

/-- A job used by the reconciliation counterexample/witnesses. -/
def jobR : Job := ⟨"j", "Job R", "#000000", 60, 70, 100, 70, 80⟩

/-- C3 counterexample: with no logs and an entered allowance of 10 the
app-side gross is 10, not the allowance-free
`appWeekdayHours*hourlyRate + appWeekendHours*weekendHourlyRate = 0` the
claim states: the source adds the entered allowance to BOTH sides. -/
theorem reconcile_appGross_cex :
    (reconcile [] jobR 0 14 ⟨0, 0, 10, 0⟩).appGross = 10 ∧
    (reconcile [] jobR 0 14 ⟨0, 0, 10, 0⟩).appWeekdayHours * jobR.hourlyRate +
      (reconcile [] jobR 0 14 ⟨0, 0, 10, 0⟩).appWeekendHours * jobR.weekendHourlyRate = 0 ∧
    (10 : ℚ) ≠ 0 := by
  refine ⟨?_, ?_, by norm_num⟩ <;>
    norm_num [reconcile, appPeriodHours, jobR]

/-- C3 amended: the slip-side gross, both net formulas and the gross diff
are as claimed, but the app-side gross also includes the entered allowance:
`appGross = appWeekdayHours*hourlyRate + appWeekendHours*weekendHourlyRate + allowance`
(the allowance therefore cancels out of `diffGrossPay`). -/
theorem reconcile_formulas (logs : List WorkLog) (job : Job) (endDate days : ℤ)
    (inp : PayslipInputs) :
    (reconcile logs job endDate days inp).appGross =
      (reconcile logs job endDate days inp).appWeekdayHours * job.hourlyRate +
      (reconcile logs job endDate days inp).appWeekendHours * job.weekendHourlyRate +
      inp.allowance ∧
    (reconcile logs job endDate days inp).slipGross =
      inp.weekday * job.hourlyRate + inp.weekend * job.weekendHourlyRate +
      inp.allowance ∧
    (reconcile logs job endDate days inp).appNet =
      (reconcile logs job endDate days inp).appGross * (1 - inp.taxRate / 100) ∧
    (reconcile logs job endDate days inp).slipNet =
      (reconcile logs job endDate days inp).slipGross * (1 - inp.taxRate / 100) ∧
    (reconcile logs job endDate days inp).diffPay =
      (reconcile logs job endDate days inp).slipGross -
      (reconcile logs job endDate days inp).appGross :=
  ⟨rfl, rfl, rfl, rfl, rfl⟩

/-! ## C9: reconciliation diffs, tolerance band and auto-fill -/

/-- C9 counterexample: a weekday diff of 0.111 hours is outside the
tolerance band, but the compensating log the auto-fill creates carries
duration `0.11` — `parseFloat(diff.toFixed(2))` — not the exact signed
diff `0.111` the claim states. -/
theorem handleAutoFill_rounding_cex :
    isOk (111/1000) = false ∧
    (handleAutoFill "w" "j" 0 false (111/1000)).map WorkLog.duration =
      some (11/100) ∧
    (11/100 : ℚ) ≠ 111/1000 := by
  refine ⟨?_, ?_, by norm_num⟩
  · simp only [isOk, isOver, isUnder]
    norm_num
  · have hne : ¬ |(111/1000 : ℚ)| ≤ 0 := by
      rw [abs_of_pos (by norm_num)]
      norm_num
    simp only [handleAutoFill, if_neg hne, Option.map_some]
    have : round2 (111/1000) = 11/100 := by
      rw [round2]
      norm_num
    rw [this]
    rfl

/-- C9 amended: the weekday and weekend diffs are the slip value minus the
app value; a diff of magnitude ≤ 0.1 hours is classified as reconciled
(`isOk`, no remediation offered) — 0.1 itself is within tolerance — while a
diff of magnitude > 0.1 (such as 0.11) is flagged, and the offered
remediation creates exactly one compensating `WorkLog` dated at `endDate`
whose duration is the signed diff rounded to two decimals
(`parseFloat(diff.toFixed(2))`). -/
theorem reconcile_tolerance (logs : List WorkLog) (job : Job) (endDate days : ℤ)
    (inp : PayslipInputs) (freshId : String) (ty : Bool) (diff : ℚ) :
    (reconcile logs job endDate days inp).diffWeekday =
      inp.weekday - (reconcile logs job endDate days inp).appWeekdayHours ∧
    (reconcile logs job endDate days inp).diffWeekend =
      inp.weekend - (reconcile logs job endDate days inp).appWeekendHours ∧
    (|diff| ≤ 1/10 → isOk diff = true) ∧
    (1/10 < |diff| →
      isOk diff = false ∧
      ∃ l, handleAutoFill freshId job.id endDate ty diff = some l ∧
        l.date = endDate ∧ l.duration = round2 diff) := by
  refine ⟨rfl, rfl, ?_, ?_⟩
  · intro h
    have h1 := (abs_le.mp h).1
    have h2 := (abs_le.mp h).2
    simp only [isOk, isOver, isUnder, Bool.and_eq_true, Bool.not_eq_true',
      decide_eq_false_iff_not]
    exact ⟨not_lt.mpr h1, not_lt.mpr h2⟩
  · intro h
    have hnot : ¬ |diff| ≤ 0 := not_le.mpr (lt_trans (by norm_num) h)
    constructor
    · simp only [isOk, isOver, isUnder]
      rcases lt_abs.mp h with h' | h'
      · rw [decide_eq_true h']
        simp
      · have hneg : diff < -(1/10) := by linarith
        rw [decide_eq_true hneg]
        simp
    · simp only [handleAutoFill, if_neg hnot]
      exact ⟨_, rfl, rfl, rfl⟩

/-- C9 witness: a diff of exactly 0.1 is within tolerance; 0.11 is outside
and produces a compensating log dated at the period end with the rounded
signed diff as duration. -/
theorem reconcile_tolerance_witness :
    isOk (1/10) = true ∧
    isOk (11/100) = false ∧
    ∃ l, handleAutoFill "w" jobR.id 0 false (11/100) = some l ∧
      l.date = 0 ∧ l.duration = round2 (11/100) := by
  have h1 := (reconcile_tolerance [] jobR 0 14 ⟨0, 0, 0, 0⟩ "w" false (1/10)).2.2.1
    (by rw [abs_le]; norm_num)
  have h2 := (reconcile_tolerance [] jobR 0 14 ⟨0, 0, 0, 0⟩ "w" false (11/100)).2.2.2
    (by rw [lt_abs]; norm_num)
  exact ⟨h1, h2.1, h2.2⟩

/-! ## C4 and C5: state migration -/

/-- The `jsOr` fallback selects the truthy content of the field when there is one and the
fallback otherwise. -/
theorem jsOr_eq_getD (x : Option ℚ) (d : ℚ) : jsOr x d = (truthy x).getD d := by
  cases x with
  | none => rfl
  | some v =>
    by_cases hv : v = 0 <;> simp [jsOr, truthy, hv]

/-- A two-step `a || b || d` chain selects the first truthy field, then the
second, then the default. -/
theorem jsOr_chain (x y : Option ℚ) (d : ℚ) :
    jsOr x (jsOr y d) = ((truthy x).or (truthy y)).getD d := by
  cases x with
  | none => exact jsOr_eq_getD y d
  | some v =>
    by_cases hv : v = 0
    · have h1 : jsOr (some v) (jsOr y d) = jsOr y d := by simp [jsOr, hv]
      have h2 : truthy (some v) = none := by simp [truthy, hv]
      rw [h1, h2]
      exact jsOr_eq_getD y d
    · have h1 : jsOr (some v) (jsOr y d) = v := by simp [jsOr, hv]
      have h2 : truthy (some v) = some v := by simp [truthy, hv]
      rw [h1, h2]
      rfl

/-- Settings for migration witnesses: no legacy fields present. -/
def mSettings : LegacySettings := ⟨none, none, none, none, none⟩

/-- An already-migrated job. -/
def jobM : Job := ⟨"m0", "Existing", "#111111", 50, 55, 200, 60, 65⟩

/-- A log that already carries a `jobId`. -/
def logKeep : WorkLog := ⟨"lk", "m0", 0, "-", "-", 2, "", 0⟩

/-- A persisted state whose job collection is non-empty. -/
def stNonEmpty : PersistedState := ⟨[jobM], [logKeep], mSettings⟩

/-- A persisted state with no jobs but an existing log. -/
def stEmptyJobs : PersistedState := ⟨[], [logKeep], mSettings⟩

/-- With a non-empty job collection, `migrate` is the identity (for any
fresh id). -/
theorem migrate_of_nonempty (freshId : String) (s : PersistedState)
    (h : s.jobs ≠ []) : migrate freshId s = s := by
  rw [migrate, if_neg]
  simp [h]

/-- C4: `migrate` changes nothing when jobs already exist, is idempotent for
every input (for any pair of fresh ids), and never reassigns a log that
already carries a (truthy) `jobId`. -/
theorem migrate_idempotent (id1 id2 : String) (st : PersistedState) :
    (st.jobs ≠ [] → migrate id1 st = st) ∧
    migrate id2 (migrate id1 st) = migrate id1 st ∧
    (∀ l ∈ st.logs, l.jobId ≠ "" → l ∈ (migrate id1 st).logs) := by
  refine ⟨migrate_of_nonempty id1 st, ?_, ?_⟩
  · by_cases hempty : st.jobs = []
    · refine migrate_of_nonempty id2 (migrate id1 st) ?_
      simp [migrate, hempty]
    · rw [migrate_of_nonempty id1 st hempty, migrate_of_nonempty id2 st hempty]
  · intro l hl hnz
    by_cases hempty : st.jobs = []
    · rw [migrate, if_pos (by simp [hempty])]
      exact List.mem_map.mpr ⟨l, hl, by simp [hnz]⟩
    · rw [migrate_of_nonempty id1 st hempty]
      exact hl

/-- C4 witness: a state that already has a job passes through `migrate`
unchanged, and a log already carrying `jobId = "m0"` survives migration of a
job-less state untouched. -/
theorem migrate_idempotent_witness :
    migrate "f1" stNonEmpty = stNonEmpty ∧
    logKeep ∈ (migrate "f2" stEmptyJobs).logs := by
  refine ⟨(migrate_idempotent "f1" "x" stNonEmpty).1 (by decide), ?_⟩
  exact (migrate_idempotent "f2" "x" stEmptyJobs).2.2 logKeep (by decide) (by decide)

/-- C5 amended: on a job-less state, `migrate` synthesizes exactly one job
named "Main Job"; each rate-related field takes the JS-truthy (present and
non-zero) value of the corresponding legacy settings field, except that
`weekendHourlyRate` falls back to the legacy `hourlyRate` before the engine
default, and `nextWeekendHourlyRate` falls back to the legacy
`nextHourlyRate` before the engine default. -/
theorem migrate_synthesizes_mainJob (freshId : String) (st : PersistedState)
    (h : st.jobs = []) :
    ∃ j, (migrate freshId st).jobs = [j] ∧ j.name = "Main Job" ∧
      j.hourlyRate = (truthy st.settings.hourlyRate).getD DEFAULT_JOB.hourlyRate ∧
      j.weekendHourlyRate =
        ((truthy st.settings.weekendHourlyRate).or
          (truthy st.settings.hourlyRate)).getD DEFAULT_JOB.weekendHourlyRate ∧
      j.targetHours = (truthy st.settings.targetHours).getD DEFAULT_JOB.targetHours ∧
      j.nextHourlyRate =
        (truthy st.settings.nextHourlyRate).getD DEFAULT_JOB.nextHourlyRate ∧
      j.nextWeekendHourlyRate =
        ((truthy st.settings.nextWeekendHourlyRate).or
          (truthy st.settings.nextHourlyRate)).getD DEFAULT_JOB.nextWeekendHourlyRate := by
  refine ⟨migrateMainJob freshId st.settings, ?_, rfl, ?_, ?_, ?_, ?_, ?_⟩
  · rw [migrate, if_pos (by simp [h])]
  · exact jsOr_eq_getD _ _
  · exact jsOr_chain _ _ _
  · exact jsOr_eq_getD _ _
  · exact jsOr_eq_getD _ _
  · exact jsOr_chain _ _ _

/-- C5 witness: with no legacy fields present, the synthesized job carries
all the engine-default values. -/
theorem migrate_synthesizes_mainJob_witness :
    ∃ j, (migrate "f3" stEmptyJobs).jobs = [j] ∧ j.name = "Main Job" ∧
      j.hourlyRate = 60 ∧ j.weekendHourlyRate = 60 ∧ j.targetHours = 1000 ∧
      j.nextHourlyRate = 70 ∧ j.nextWeekendHourlyRate = 70 := by
  obtain ⟨j, hj, hn, h1, h2, h3, h4, h5⟩ :=
    migrate_synthesizes_mainJob "f3" stEmptyJobs rfl
  exact ⟨j, hj, hn, h1.trans rfl, h2.trans rfl, h3.trans rfl, h4.trans rfl,
    h5.trans rfl⟩

/-- Legacy settings with a weekday rate of 50 and no weekend rate. -/
def cexSettings : LegacySettings := ⟨some 50, none, none, none, none⟩

/-- A job-less persisted state with `cexSettings`. -/
def cexState : PersistedState := ⟨[], [], cexSettings⟩

/-- C5 counterexample: with legacy `hourlyRate = 50` present and
`weekendHourlyRate` absent, the synthesized job's `weekendHourlyRate` is 50
(the legacy `hourlyRate`), not the engine default 60 the claim requires for
a missing field. -/
theorem migrate_weekendRate_cex :
    (migrate "mc" cexState).jobs.map Job.weekendHourlyRate = [50] ∧
    DEFAULT_JOB.weekendHourlyRate = 60 ∧ (50 : ℚ) ≠ 60 := by
  refine ⟨?_, rfl, by norm_num⟩
  norm_num [migrate, cexState, cexSettings, migrateMainJob, jsOr]

/-! ## C10: job deletion preserves a non-empty job collection -/

/-- With pairwise-distinct ids, removing the jobs matching one id removes at
most one element. -/
theorem filter_id_length (tgt : String) :
    ∀ (jobs : List Job), (jobs.map Job.id).Nodup →
      jobs.length - 1 ≤ (jobs.filter (fun j => j.id != tgt)).length := by
  intro jobs
  induction jobs with
  | nil => simp
  | cons a tl ih =>
    intro hnd
    rw [List.map_cons, List.nodup_cons] at hnd
    by_cases ha : a.id = tgt
    · have hall : tl.filter (fun j => j.id != tgt) = tl := by
        rw [List.filter_eq_self]
        intro j hj
        have hne : j.id ≠ tgt := by
          intro he
          exact hnd.1 (ha ▸ he ▸ List.mem_map_of_mem Job.id hj)
        simp [hne]
      have hfc : (a :: tl).filter (fun j => j.id != tgt) = tl := by
        rw [List.filter_cons, if_neg (by simp [ha]), hall]
      rw [hfc, List.length_cons]
      omega
    · have hih := ih hnd.2
      simp only [List.filter_cons]
      rw [if_pos (by simp [ha])]
      simp only [List.length_cons]
      omega

/-- One delete-job step keeps the job collection non-empty and its ids
pairwise distinct. -/
theorem handleDeleteJob_preserves (jobs : List Job) (logs : List WorkLog)
    (tgt : String) (h1 : jobs ≠ []) (h2 : (jobs.map Job.id).Nodup) :
    (handleDeleteJob jobs logs tgt).1 ≠ [] ∧
    ((handleDeleteJob jobs logs tgt).1.map Job.id).Nodup := by
  rw [handleDeleteJob]
  by_cases hlen : jobs.length ≤ 1
  · rw [if_pos hlen]
    exact ⟨h1, h2⟩
  · rw [if_neg hlen]
    push_neg at hlen
    constructor
    · show jobs.filter (fun j => j.id != tgt) ≠ []
      have hge := filter_id_length tgt jobs h2
      refine List.ne_nil_of_length_pos ?_
      omega
    · show ((jobs.filter (fun j => j.id != tgt)).map Job.id).Nodup
      exact h2.sublist ((List.filter_sublist jobs).map Job.id)

/-- C10: deleting when a single job remains is refused with both collections
unchanged, and from any job collection that is non-empty (with distinct ids,
the data-model invariant) no sequence of delete operations can empty it. -/
theorem deleteJob_preserves_nonempty (ops : List String) (jobs : List Job)
    (logs : List WorkLog) (h1 : jobs ≠ []) (h2 : (jobs.map Job.id).Nodup) :
    (∀ (jobs' : List Job) (logs' : List WorkLog) (tgt : String),
      jobs'.length = 1 → handleDeleteJob jobs' logs' tgt = (jobs', logs')) ∧
    (ops.foldl (fun st tgt => handleDeleteJob st.1 st.2 tgt) (jobs, logs)).1 ≠ [] := by
  constructor
  · intro jobs' logs' tgt hlen
    rw [handleDeleteJob, if_pos (by omega)]
  · have main : ∀ (ops' : List String) (st : List Job × List WorkLog),
        st.1 ≠ [] → (st.1.map Job.id).Nodup →
        (ops'.foldl (fun st tgt => handleDeleteJob st.1 st.2 tgt) st).1 ≠ [] := by
      intro ops'
      induction ops' with
      | nil => intro st ha hb; simpa using ha
      | cons d tl ih =>
        intro st ha hb
        rw [List.foldl_cons]
        have h := handleDeleteJob_preserves st.1 st.2 d ha hb
        exact ih (handleDeleteJob st.1 st.2 d) h.1 h.2
    exact main ops (jobs, logs) h1 h2

/-- C10 witness: with a single job, deletion is refused; a two-deletion
sequence starting from one job leaves the collection non-empty. -/
theorem deleteJob_preserves_nonempty_witness :
    handleDeleteJob [jobM] [] "m0" = ([jobM], []) ∧
    ((["m0", "x"] : List String).foldl
      (fun st tgt => handleDeleteJob st.1 st.2 tgt) ([jobM], [])).1 ≠ [] := by
  have h := deleteJob_preserves_nonempty ["m0", "x"] [jobM] [] (by decide) (by decide)
  exact ⟨h.1 [jobM] [] "m0" (by decide), h.2⟩

/-- C6 witness: clicking `2024-03-10` then `2024-03-05` yields the
normalized range `start = 2024-03-05 ≤ end = 2024-03-10`. -/
theorem rangeSelector_normalized_witness :
    clickAll ["2024-03-10", "2024-03-05"] = (some "2024-03-05", some "2024-03-10") ∧
    ("2024-03-05" : String) ≤ "2024-03-10" := by
  have hlt : ("2024-03-05" : String) < "2024-03-10" :=
    String.lt_iff_toList_lt.mpr (by decide)
  have hc : clickAll ["2024-03-10", "2024-03-05"] =
      (some "2024-03-05", some "2024-03-10") := by
    simp [clickAll, handleDateClick, hlt]
  exact ⟨hc, rangeSelector_normalized.1 ["2024-03-10", "2024-03-05"] _ _
    (by rw [hc]) (by rw [hc])⟩
